import Mathlib

/-!
Verification of the agentexports browser-extension content script
(`src/extension/content.js`) against its natural-language specification.

The script is embedded shallowly:

* JavaScript strings are modelled as `List Char` (`Str`), so every string
  operation the script performs (substring tests, prefix rewrites,
  lexicographic comparison) is an executable Lean function with the same
  behaviour on the character sequence.
* `URL` objects are modelled by the record `JsUrl` holding the components the
  script reads and writes (scheme, host, pathname, query, fragment).  The
  fragment is stored without its leading `#`; the empty list plays the role of
  the empty `url.hash`.
* Byte buffers are `List Nat` (one entry per byte).
* The DOM is modelled by `Dom`, a node store with a parent map: the script
  only ever reparents existing nodes (`insertBefore` / `appendChild`), creates
  fresh elements, asks for `document.getElementById`, walks `parentElement`
  chains and tests `Node.contains`, all of which depend only on the parent
  relation, node identity and the id attribute.  Sibling order, which none of
  the verified properties mention, is not tracked.
* `Array.prototype.sort` with a consistent comparator `cmp` is required by the
  ECMAScript specification to produce the unique stable reordering that is
  sorted for `fun a b => cmp a b ≤ 0`; it is modelled by
  `List.insertionSort (fun a b => cmp a b ≤ 0)`, which computes exactly that
  reordering.
* Asynchronous retrieval (`fetch`, Web Crypto, gzip) is cut off at the point
  where the script hands data to the platform: `decryptBlob` is modelled up to
  the `crypto.subtle` call and returns the nonce/ciphertext split it would
  pass on, and `init`'s fetch outcomes are a Boolean oracle per URL.
-/

namespace AgentExport

/-- JavaScript strings, modelled as their list of characters. -/
abbrev Str := List Char

/-- ASCII lower-casing of one character, as performed by a case-insensitive
JavaScript regex on the ASCII letters appearing in the script's patterns. -/
def charLower (c : Char) : Char :=
  if 65 ≤ c.toNat ∧ c.toNat ≤ 90 then Char.ofNat (c.toNat + 32) else c

/-- Lower-case an entire string (ASCII letters only). -/
def lowerStr (s : Str) : Str :=
  s.map charLower

/-- Does `pat` occur as a contiguous substring of `s`?  Models
`RegExp.prototype.test` for a fixed-text pattern. -/
def containsSub (pat : Str) : Str → Bool
  | [] => pat.isEmpty
  | c :: rest => List.isPrefixOf pat (c :: rest) || containsSub pat rest

/-- Case-insensitive substring test: models `/pat/i.test(s)` for the
fixed-text patterns used by the script. -/
def containsCI (s pat : Str) : Bool :=
  containsSub (lowerStr pat) (lowerStr s)

/-- Does `s` end with `pat`? -/
def endsWithStr (s pat : Str) : Bool :=
  List.isPrefixOf pat.reverse s.reverse

/-- Models the regex `/\.json(\?|#|$)/i`: `.json` immediately followed by
`?`, `#` or the end of the string, case-insensitively. -/
def jsonSuffixMatch (s : Str) : Bool :=
  containsSub ".json?".toList (lowerStr s) ||
  containsSub ".json#".toList (lowerStr s) ||
  endsWithStr (lowerStr s) ".json".toList

/-- Candidate score, from the scoring loop of `extractMappingUrlFromElement`
(content.js lines 76-85): `/gm/` +80, the `agentexport-map` marker +50, the
gist host +40, a `.json` suffix +30, `/blob/` +25, the `agentexports.com`
origin +10, `/v/` -10, and `/g/` without `/gm/` -100. -/
def scoreCandidate (href : Str) : Int :=
  (if containsCI href "/gm/".toList then 80 else 0)
  + (if containsCI href "agentexport-map".toList then 50 else 0)
  + (if containsCI href "gist.githubusercontent.com".toList then 40 else 0)
  + (if jsonSuffixMatch href then 30 else 0)
  + (if containsCI href "/blob/".toList then 25 else 0)
  + (if containsCI href "agentexports.com".toList then 10 else 0)
  - (if containsCI href "/v/".toList then 10 else 0)
  - (if containsCI href "/g/".toList && !containsCI href "/gm/".toList then 100 else 0)

/-- Candidate selection loop of `extractMappingUrlFromElement` (content.js
lines 73-91): best score wins, strictly-greater scores replace the running
best, so ties keep the first-found candidate; the running best starts at -1
so a candidate scoring below zero can never be selected on its own. -/
def selectBestCandidate (candidates : List Str) : Option Str :=
  (candidates.foldl
    (fun (acc : Option Str × Int) href =>
      if scoreCandidate href > acc.2 then (some href, scoreCandidate href) else acc)
    (none, -1)).1

/-- `isLikelyMappingUrl` (content.js lines 335-343), the structural whitelist
gating cache writes: accepts `/gm/`, `/blob/`, the gist host or a `.json`
suffix, in that order, and only afterwards tests the legacy `/g/`-without-
`/gm/` exclusion (which, like the final fallthrough, returns false). -/
def isLikelyMappingUrl (url : Str) : Bool :=
  if url.isEmpty then false
  else if containsCI url "/gm/".toList then true
  else if containsCI url "/blob/".toList then true
  else if containsCI url "gist.githubusercontent.com".toList then true
  else if jsonSuffixMatch url then true
  else if containsCI url "/g/".toList && !containsCI url "/gm/".toList then false
  else false

/-- A parsed `URL` object, holding the components the script reads or
writes.  `fragment` is the `url.hash` without its leading `#`; the empty
list is the empty hash. -/
structure JsUrl where
  scheme : Str
  host : Str
  pathname : Str
  query : Str
  fragment : Str
deriving DecidableEq, Repr

/-- `String.prototype.replace(pat, rep)` with a string pattern: replaces the
first occurrence of `pat`, or returns the string unchanged when `pat` does
not occur (an empty pattern is replaced in front, as in JavaScript). -/
def replaceFirst (pat rep : Str) : Str → Str
  | [] => if pat.isEmpty then rep else []
  | c :: rest =>
    if List.isPrefixOf pat (c :: rest) then rep ++ (c :: rest).drop pat.length
    else c :: replaceFirst pat rep rest

/-- First statement of `normalizeMappingUrl` (content.js lines 105-107):
when a fragment is present and the path starts with `/v/`, rewrite that
prefix to `/blob/`. -/
def rewriteVPath (u : JsUrl) : Str :=
  if !u.fragment.isEmpty && List.isPrefixOf "/v/".toList u.pathname then
    replaceFirst "/v/".toList "/blob/".toList u.pathname
  else u.pathname

/-- Second statement of `normalizeMappingUrl` (content.js lines 108-110):
when the (possibly already rewritten) path starts with `/g/`, rewrite that
prefix to `/gm/`. -/
def rewriteGPath (p : Str) : Str :=
  if List.isPrefixOf "/g/".toList p then
    replaceFirst "/g/".toList "/gm/".toList p
  else p

/-- `normalizeMappingUrl` (content.js lines 103-112): the two sequential
pathname rewrites above, leaving every other component unchanged. -/
def normalizeMappingUrl (u : JsUrl) : JsUrl :=
  { u with pathname := rewriteGPath (rewriteVPath u) }

/-- `URL.prototype.toString` for the modelled components. -/
def serializeUrl (u : JsUrl) : Str :=
  u.scheme ++ "://".toList ++ u.host ++ u.pathname
  ++ (if u.query.isEmpty then [] else '?' :: u.query)
  ++ (if u.fragment.isEmpty then [] else '#' :: u.fragment)

/-- Hexadecimal digit for percent-encoding. -/
def hexDigit (n : Nat) : Char :=
  if n < 10 then Char.ofNat (48 + n) else Char.ofNat (55 + n % 16)

/-- UTF-8 encoding of one character, for percent-encoding non-ASCII data. -/
def utf8Bytes (c : Char) : List Nat :=
  let n := c.toNat
  if n < 128 then [n]
  else if n < 2048 then [192 + n / 64, 128 + n % 64]
  else if n < 65536 then [224 + n / 4096, 128 + n / 64 % 64, 128 + n % 64]
  else [240 + n / 262144, 128 + n / 4096 % 64, 128 + n / 64 % 64, 128 + n % 64]

/-- `application/x-www-form-urlencoded` escaping of one character, as done by
`URLSearchParams.set`: ASCII alphanumerics and `*-._` stay, space becomes
`+`, everything else is percent-encoded byte-wise. -/
def formEncodeChar (c : Char) : Str :=
  let n := c.toNat
  if (48 ≤ n ∧ n ≤ 57) ∨ (65 ≤ n ∧ n ≤ 90) ∨ (97 ≤ n ∧ n ≤ 122)
      ∨ c = '*' ∨ c = '-' ∨ c = '.' ∨ c = '_' then [c]
  else if c = ' ' then ['+']
  else (utf8Bytes c).flatMap (fun b => ['%', hexDigit (b / 16), hexDigit (b % 16)])

/-- `URLSearchParams.set`-style encoding of a whole value. -/
def formEncode (s : Str) : Str :=
  s.flatMap formEncodeChar

/-- `proxiedUrlFor` (content.js lines 203-210): requests to the gist host go
through `proxyBase + "/proxy?url=" + encoded original`, everything else is
fetched directly.  `proxyBase` contributes its origin (scheme and host). -/
def proxiedUrlFor (proxyBase : JsUrl) (u : JsUrl) : JsUrl :=
  if u.host = "gist.githubusercontent.com".toList then
    { scheme := proxyBase.scheme, host := proxyBase.host,
      pathname := "/proxy".toList,
      query := "url=".toList ++ formEncode (serializeUrl u),
      fragment := [] }
  else u

/-- The URL-shaping part of `fetchMapping` (content.js lines 212-216): the
reference is normalized, its fragment is split off as the optional key
(`url.hash.slice(1)`) and cleared (`url.hash = ""`), and the resulting URL —
possibly rerouted through the proxy — is what `fetchMappingResource`
retrieves. -/
def fetchRequestUrl (raw : JsUrl) (proxyBase : JsUrl) : JsUrl :=
  let url := normalizeMappingUrl raw
  let stripped : JsUrl := { url with fragment := [] }
  proxiedUrlFor proxyBase stripped

/-- The symmetric key split off by `fetchMapping`: the fragment of the
normalized reference. -/
def fetchMappingKey (raw : JsUrl) : Str :=
  (normalizeMappingUrl raw).fragment

/-- Success of `new URL(raw, window.location.href)` for the absolute
`http(s)` URL strings the Reference Locator produces (the only strings that
reach the cache): scheme, then a non-empty host up to `/`, `?` or `#`, then
pathname, query and fragment.  Models the `try { normalizeMappingUrl(...) }`
structural check applied to cached values. -/
def parseUrl (s : Str) : Option JsUrl :=
  let (scheme, rest) :=
    if List.isPrefixOf "https://".toList s then ("https".toList, s.drop 8)
    else if List.isPrefixOf "http://".toList s then ("http".toList, s.drop 7)
    else ([], s)
  if scheme.isEmpty then none
  else
    let host := rest.takeWhile (fun c => c ≠ '/' ∧ c ≠ '?' ∧ c ≠ '#')
    if host.isEmpty then none
    else
      let afterHost := rest.drop host.length
      let path := afterHost.takeWhile (fun c => c ≠ '?' ∧ c ≠ '#')
      let afterPath := afterHost.drop path.length
      let query := (afterPath.takeWhile (fun c => c ≠ '#')).drop 1
      let frag := (afterPath.dropWhile (fun c => c ≠ '#')).drop 1
      some { scheme := scheme, host := host,
             pathname := if path.isEmpty then "/".toList else path,
             query := query, fragment := frag }

/-- Value of one base64 alphabet character, `none` for anything outside the
alphabet (including `=`, handled separately as padding). -/
def b64Val (c : Char) : Option Nat :=
  let n := c.toNat
  if 65 ≤ n ∧ n ≤ 90 then some (n - 65)
  else if 97 ≤ n ∧ n ≤ 122 then some (n - 97 + 26)
  else if 48 ≤ n ∧ n ≤ 57 then some (n - 48 + 52)
  else if c = '+' then some 62
  else if c = '/' then some 63
  else none

/-- `atob` on a padded base64 string: decodes four-character groups into
three bytes, with `=`-padding allowed only in the final group; returns
`none` where `atob` would throw. -/
def b64DecodeCore : Str → Option (List Nat)
  | [] => some []
  | a :: b :: c :: d :: rest =>
    match b64Val a, b64Val b with
    | some va, some vb =>
      if c = '=' then
        if d = '=' ∧ rest = [] then some [va * 4 + vb / 16] else none
      else
        match b64Val c with
        | some vc =>
          if d = '=' then
            if rest = [] then some [va * 4 + vb / 16, vb % 16 * 16 + vc / 4] else none
          else
            match b64Val d with
            | some vd =>
              match b64DecodeCore rest with
              | some bs => some ([va * 4 + vb / 16, vb % 16 * 16 + vc / 4, vc % 4 * 64 + vd] ++ bs)
              | none => none
            | none => none
        | none => none
    | _, _ => none
  | _ => none

/-- `base64UrlDecode` (content.js lines 152-160): map the URL-safe alphabet
back to standard base64, pad to a multiple of four, decode with `atob`.
`none` models the `InvalidCharacterError` thrown by `atob` on malformed
input. -/
def base64UrlDecode (s : Str) : Option (List Nat) :=
  let t := s.map (fun c => if c = '-' then '+' else if c = '_' then '/' else c)
  let padded := t ++ List.replicate ((4 - t.length % 4) % 4) '='
  b64DecodeCore padded

/-- Outcome of `decryptBlob` up to the Web Crypto call: the two validation
errors it throws itself, the `atob` failure from decoding the key, or the
nonce/ciphertext split handed to `crypto.subtle.decrypt`. -/
inductive DecryptStep
  | keyDecodeError
  | invalidKey
  | invalidBlob
  | proceed (iv ciphertext : List Nat)
deriving DecidableEq, Repr

/-- `decryptBlob` (content.js lines 190-201) up to the platform decrypt call:
decode the key, throw `Invalid mapping key` unless it is exactly 32 bytes,
throw `Invalid mapping blob` when `buffer.byteLength < 13`, otherwise slice
the first 12 bytes as the AES-GCM nonce and pass the remainder as
ciphertext. -/
def decryptBlob (buffer : List Nat) (key : Str) : DecryptStep :=
  match base64UrlDecode key with
  | none => .keyDecodeError
  | some keyBytes =>
    if keyBytes.length ≠ 32 then .invalidKey
    else if buffer.length < 13 then .invalidBlob
    else .proceed (buffer.take 12) (buffer.drop 12)

/-- Does an optional discovered reference pass `isLikelyMappingUrl`?  Models
the `if (x && isLikelyMappingUrl(x))` guards of `resolveMappingUrl`. -/
def likelyOpt : Option Str → Bool
  | some s => isLikelyMappingUrl s
  | none => false

/-- Structural validation applied to a cached reference by
`resolveMappingUrl` (content.js lines 314-325): it must pass
`isLikelyMappingUrl` and `normalizeMappingUrl` — that is, URL parsing — must
not throw. -/
def cacheValid : Option Str → Bool
  | some c => isLikelyMappingUrl c && (parseUrl c).isSome
  | none => false

/-- JavaScript truthiness of an optional string (`null` and the empty
string are falsy). -/
def jsTruthyStr : Option Str → Bool
  | some s => !s.isEmpty
  | none => false

/-- `resolveMappingUrl` (content.js lines 304-333) as a function of the
three discovery outcomes: `dom` is what the Locator finds in the currently
rendered view, `cached` the sessionStorage entry for this conversation,
`fetched` what re-running the Locator over the re-fetched thread yields.
Returns the resolved reference together with the cache entry's state
afterwards: a falsy cached value is never even validated (`if (cached)`),
a truthy one failing validation is removed. -/
def resolveMappingUrl (hasInfo : Bool) (dom cached fetched : Option Str) :
    Option Str × Option Str :=
  if !hasInfo then (none, cached)
  else if likelyOpt dom then (dom, dom)
  else
    let cachedOk := jsTruthyStr cached && cacheValid cached
    let cacheAfter :=
      if jsTruthyStr cached && !cacheValid cached then none else cached
    if likelyOpt fetched then (fetched, fetched)
    else if cachedOk then (cached, cacheAfter)
    else (none, cacheAfter)

/-- Observable outcome of `init`'s mapping pipeline: no reference found (the
empty-state message), a mapping fetched from some URL and rendered, or the
error message rendered in the panel body. -/
inductive InitResult
  | noUrl
  | rendered (url : Str)
  | errorShown
deriving DecidableEq, Repr

/-- The mapping-resolution portion of `init` (content.js lines 937-961):
resolve a reference; on fetch failure remove the conversation's cache entry
and resolve again (the retry therefore runs with an absent cache entry),
fetching the re-derived reference; a second failure — or failure to
re-derive — surfaces the error.  The two resolution passes may observe
different page content (`dom1`/`fetched1` versus `dom2`/`fetched2`);
`fetchOk` tells whether `fetchMapping` succeeds on a given URL. -/
def initMappingFlow (hasInfo : Bool) (cache0 : Option Str)
    (dom1 fetched1 dom2 fetched2 : Option Str) (fetchOk : Str → Bool) :
    InitResult × Option Str :=
  let r1 := resolveMappingUrl hasInfo dom1 cache0 fetched1
  match r1.1 with
  | none => (.noUrl, r1.2)
  | some u1 =>
    if fetchOk u1 then (.rendered u1, r1.2)
    else if hasInfo then
      let r2 := resolveMappingUrl hasInfo dom2 none fetched2
      match r2.1 with
      | some u2 => if fetchOk u2 then (.rendered u2, r2.2) else (.errorShown, r2.2)
      | none => (.errorShown, r2.2)
    else (.errorShown, r1.2)

/-- Lexicographic (code-point) strict order on strings; JavaScript's
`String.prototype.localeCompare` agrees with this order on the ISO-8601
timestamp strings (ASCII digits and punctuation) the script compares. -/
def lexLt : Str → Str → Bool
  | [], [] => false
  | [], _ :: _ => true
  | _ :: _, [] => false
  | a :: as, b :: bs => if a = b then lexLt as bs else decide (a.toNat < b.toNat)

/-- Reflexive closure of `lexLt`. -/
def lexLe (a b : Str) : Bool :=
  lexLt a b || a == b

/-- Sign-level model of `aTime.localeCompare(bTime)`. -/
def lexCmp (a b : Str) : Int :=
  if lexLt a b then -1 else if a = b then 0 else 1

/-- A conversation message; only the fields the rendering order reads are
modelled.  `timestamp = none` is a missing timestamp (the script's
`msg.timestamp || ""` also sends an empty-string timestamp to `""`, so the
empty list covers both). -/
structure Message where
  id : Nat
  timestamp : Option Str
deriving DecidableEq, Repr

/-- `msg.timestamp || ""`. -/
def msgTime (m : Message) : Str :=
  m.timestamp.getD []

/-- One `Map.prototype.set` step: an existing key keeps its position but
takes the new value, a new key is appended. -/
def upsert (l : List Message) (m : Message) : List Message :=
  if l.any (fun x => x.id == m.id) then
    l.map (fun x => if x.id == m.id then m else x)
  else l ++ [m]

/-- `messagesById` insertion order (content.js lines 664-665, 700): the
deduplicated message list in `Map` iteration order. -/
def messagesByIdList (msgs : List Message) : List Message :=
  msgs.foldl upsert []

/-- `indexById.get(id) || 0` (content.js lines 701-702): the message's index
in the deduplicated list, with both a missing entry and index 0 collapsing
to 0 exactly as the JavaScript `|| 0` does. -/
def indexById (l : List Message) (i : Nat) : Nat :=
  if l.any (fun m => m.id == i) then l.findIdx (fun m => m.id == i) else 0

/-- First comparator (content.js lines 703-710): timestamped messages by
`localeCompare`, a timestamped message before a timestamp-less one, two
timestamp-less messages by original index. -/
def cmpByTimeThenIndex (idx : Nat → Nat) (a b : Message) : Int :=
  let aT := msgTime a
  let bT := msgTime b
  if aT ≠ [] ∧ bT ≠ [] then lexCmp aT bT
  else if aT ≠ [] then -1
  else if bT ≠ [] then 1
  else (idx a.id : Int) - (idx b.id : Int)

/-- Second comparator (content.js lines 741-745): plain `localeCompare` of
the `|| ""`-defaulted timestamps. -/
def cmpByTime (a b : Message) : Int :=
  lexCmp (msgTime a) (msgTime b)

/-- The non-strict relation induced by the first comparator. -/
def leByTimeThenIndex (idx : Nat → Nat) (a b : Message) : Prop :=
  cmpByTimeThenIndex idx a b ≤ 0

/-- The non-strict relation induced by the second comparator. -/
def leByTime (a b : Message) : Prop :=
  cmpByTime a b ≤ 0

instance (idx : Nat → Nat) : DecidableRel (leByTimeThenIndex idx) :=
  fun a b => inferInstanceAs (Decidable (cmpByTimeThenIndex idx a b ≤ 0))

instance : DecidableRel leByTime :=
  fun a b => inferInstanceAs (Decidable (cmpByTime a b ≤ 0))

/-- The rendered message order of `renderPanel`: deduplicate by id, sort the
message array with the first comparator, then (rows carrying the messages
unchanged) sort again with the second comparator.  `Array.prototype.sort`
with a consistent comparator is the unique stable sorted reordering, which
`List.insertionSort` computes. -/
def renderOrder (msgs : List Message) : List Message :=
  List.insertionSort leByTime
    (List.insertionSort (leByTimeThenIndex (indexById (messagesByIdList msgs)))
      (messagesByIdList msgs))

/-- A diff hunk; fields the anchor derivation reads. -/
structure Hunk where
  id : Nat
  file_path : Str
  new_start : Nat
deriving DecidableEq, Repr

/-- An `edit_hunks` row. -/
structure Link where
  edit_id : Nat
  hunk_id : Nat
deriving DecidableEq, Repr

/-- An edit; fields the anchor derivation reads.  `start_line` is optional
because the script itself guards with `if (edit.start_line)` and
`edit.start_line || "?"`. -/
structure Edit where
  id : Nat
  file_path : Str
  start_line : Option Nat
deriving DecidableEq, Repr

/-- An anchor as pushed by `renderPanel` (content.js lines 718-736):
location plus the edit, and the hunk when the anchor came from one. -/
structure Anchor where
  file_path : Str
  line : Nat
  edit : Edit
  hunk : Option Hunk
deriving DecidableEq, Repr

/-- JavaScript truthiness of an optional numeric field (`undefined`, `null`
and `0` are falsy). -/
def jsTruthyNat : Option Nat → Bool
  | some n => n != 0
  | none => false

/-- `hunkIdsByEdit.get(edit.id) || []` (content.js lines 672-676): the hunk
ids of the `edit_hunks` rows naming this edit, in row order. -/
def hunkIdsByEdit (links : List Link) (editId : Nat) : List Nat :=
  (links.filter (fun l => l.edit_id == editId)).map (fun l => l.hunk_id)

/-- `hunksById.get(hunkId)` (content.js lines 667-670): `Map.set` lets a
later duplicate id overwrite an earlier one, so the last matching hunk
wins. -/
def hunksByIdGet (hunks : List Hunk) (hunkId : Nat) : Option Hunk :=
  hunks.reverse.find? (fun h => h.id == hunkId)

/-- Anchor derivation for one edit (content.js lines 715-737): with no
linked hunk ids, a single anchor at `(edit.file_path, edit.start_line)` —
but only when `edit.start_line` is truthy; with linked hunk ids, one anchor
per id that resolves to a hunk, at `(hunk.file_path, hunk.new_start)`. -/
def anchorsForEdit (links : List Link) (hunks : List Hunk) (edit : Edit) :
    List Anchor :=
  if (hunkIdsByEdit links edit.id).isEmpty then
    if jsTruthyNat edit.start_line then
      [{ file_path := edit.file_path, line := edit.start_line.getD 0,
         edit := edit, hunk := none }]
    else []
  else
    (hunkIdsByEdit links edit.id).filterMap (fun hunkId =>
      (hunksByIdGet hunks hunkId).map (fun h =>
        { file_path := h.file_path, line := h.new_start,
          edit := edit, hunk := some h }))

/-- The document, as far as `attachPanel` observes and mutates it: allocated
node ids (`nextId` is the next fresh one), the parent relation, the set of
nodes carrying the DOM id `agentexport-layout` (in creation order, standing
in for tree order), and the root standing for `document.documentElement` /
`document.body`.  `insertBefore` and `appendChild` both reparent a node;
sibling order, which none of the verified properties mention, is not
tracked. -/
structure Dom where
  nextId : Nat
  root : Nat
  parentMap : List (Nat × Nat)
  layoutIds : List Nat
deriving DecidableEq, Repr

/-- `node.parentElement`. -/
def parentOf (d : Dom) (n : Nat) : Option Nat :=
  (d.parentMap.find? (fun p => p.1 == n)).map (fun p => p.2)

/-- Reparent `n` under `p`: the shared effect of `insertBefore` and
`appendChild` on the modelled state. -/
def setParent (d : Dom) (n p : Nat) : Dom :=
  { d with parentMap := (n, p) :: d.parentMap.filter (fun q => q.1 ≠ n) }

/-- Does the parent chain from `n` reach the root within `fuel` steps? -/
def reachesRoot (d : Dom) : Nat → Nat → Bool
  | 0, _ => false
  | fuel + 1, n =>
    n == d.root ||
      match parentOf d n with
      | some p => reachesRoot d fuel p
      | none => false

/-- Enough fuel to traverse any simple parent chain. -/
def domFuel (d : Dom) : Nat :=
  d.nextId + 1

/-- Is `n` connected to the document (so that `document.getElementById` can
find it)? -/
def inDoc (d : Dom) (n : Nat) : Bool :=
  reachesRoot d (domFuel d) n

/-- `document.getElementById("agentexport-layout")`: the first layout node
that is in the document. -/
def getLayoutElem (d : Dom) : Option Nat :=
  d.layoutIds.find? (fun n => inDoc d n)

/-- `document.createElement("div")` with `id = "agentexport-layout"`: a
fresh, detached node registered under the layout id. -/
def createLayoutElem (d : Dom) : Dom × Nat :=
  ({ d with nextId := d.nextId + 1, layoutIds := d.layoutIds ++ [d.nextId] },
   d.nextId)

/-- `a.contains(b)`: is `a` an inclusive ancestor of `b`? -/
def containsNode (d : Dom) (a : Nat) : Nat → Nat → Bool
  | 0, _ => false
  | fuel + 1, b =>
    b == a ||
      match parentOf d b with
      | some p => containsNode d a fuel p
      | none => false

/-- `directChildOf` (content.js lines 480-486): walk up from `node` until
the current node's parent is `parent`; `none` when the walk leaves the tree
first. -/
def directChildOf (d : Dom) (parent : Nat) : Nat → Nat → Option Nat
  | 0, _ => none
  | fuel + 1, cur =>
    if parentOf d cur = some parent then some cur
    else
      match parentOf d cur with
      | some p => directChildOf d parent fuel p
      | none => none

/-- `getAncestors` (content.js lines 497-505): the node and its ancestors,
from the node upward, stopping below `document.documentElement`. -/
def getAncestors (d : Dom) : Nat → Nat → List Nat
  | 0, _ => []
  | fuel + 1, cur =>
    if cur = d.root then []
    else
      cur ::
        match parentOf d cur with
        | some p => getAncestors d fuel p
        | none => []

/-- `lowestCommonAncestor` (content.js lines 469-478) for the two-node calls
`attachPanel` makes: the first entry of `a`'s ancestor list that also occurs
in `b`'s. -/
def lowestCommonAncestor2 (d : Dom) (a b : Nat) : Option Nat :=
  ((getAncestors d (domFuel d) a).filter
    (fun x => (getAncestors d (domFuel d) b).contains x)).head?

/-- The two-pane branch of `attachPanel` (content.js lines 510-530): when
sidebar and diff container share a non-root common ancestor with two
distinct direct-child branches, reuse (or once create and insert) the layout
node there and reparent panel and both branches into it, each step guarded
by a check that it is not already in place.  `none` when any precondition
fails and `attachPanel` falls through. -/
def attachViaSidebar (d : Dom) (panel container sb : Nat) : Option (Dom × Bool) :=
  match lowestCommonAncestor2 d sb container with
  | none => none
  | some common =>
    if common = d.root then none
    else
      match directChildOf d common (domFuel d) sb,
            directChildOf d common (domFuel d) container with
      | some sidebarChild, some diffChild =>
        if sidebarChild ≠ diffChild then
          let step1 : Dom × Nat :=
            match getLayoutElem d with
            | some l => (d, l)
            | none =>
              let (dNew, l) := createLayoutElem d
              (setParent dNew l common, l)
          let d1 := step1.1
          let layout := step1.2
          let d2 :=
            if containsNode d1 layout (domFuel d1) panel then d1
            else setParent d1 panel layout
          let d3 :=
            if parentOf d2 sidebarChild = some layout then d2
            else setParent d2 sidebarChild layout
          let d4 :=
            if parentOf d3 diffChild = some layout then d3
            else setParent d3 diffChild layout
          some (d4, true)
        else none
      | _, _ => none

/-- `attachPanel` (content.js lines 507-544).  `target` is
`findFilesContainer()`'s result (container and its parent element),
`sidebar` is `findSidebarContainer()`'s; both finders only query the
document, so they are passed as inputs.  Returns the mutated document and
the attach success flag. -/
def attachPanel (d : Dom) (panel : Nat) (target : Option (Nat × Nat))
    (sidebar : Option Nat) : Dom × Bool :=
  match target with
  | none => (d, false)
  | some (container, parentEl) =>
    let viaSidebar :=
      match sidebar with
      | none => none
      | some sb => attachViaSidebar d panel container sb
    match viaSidebar with
    | some res => res
    | none =>
      match getLayoutElem d with
      | some existing =>
        (if containsNode d existing (domFuel d) panel then d
         else setParent d panel existing, true)
      | none =>
        let (dNew, layout) := createLayoutElem d
        let d1 := setParent dNew layout parentEl
        let d2 := setParent d1 panel layout
        let d3 := setParent d2 container layout
        (d3, true)

/-! ## Concrete values used by several theorems -/

/-- A canonical-path candidate URL. -/
def gmCandidate : Str :=
  "https://agentexports.com/gm/abc".toList

/-- The same candidate with a `.json` suffix appended. -/
def gmJsonCandidate : Str :=
  gmCandidate ++ ".json".toList

/-- A candidate carrying only the `.json` suffix, not the canonical path. -/
def jsonOnlyCandidate : Str :=
  "https://agentexports.com/abc.json".toList

/-- A URL-safe-base64 key of 43 characters, decoding to 32 zero bytes. -/
def demoKey : Str :=
  "AAAAAAAAAAAAAAAAAAAAAAAAAAAAAAAAAAAAAAAAAAA".toList

/-- A legacy `/v/`-path reference without a fragment. -/
def vPathRef : JsUrl :=
  { scheme := "https".toList, host := "agentexports.com".toList,
    pathname := "/v/abc".toList, query := [], fragment := [] }

/-- The same reference carrying a key fragment. -/
def vPathRefKeyed : JsUrl :=
  { vPathRef with fragment := "k".toList }

/-- The script's `DEFAULT_PROXY_BASE` origin. -/
def defaultProxyBase : JsUrl :=
  { scheme := "https".toList, host := "agentexports.com".toList,
    pathname := [], query := [], fragment := [] }

/-- An edit with neither linked hunks nor a start line. -/
def noLineEdit : Edit :=
  { id := 10, file_path := "f".toList, start_line := none }

/-- An edit with a start line. -/
def lineEdit : Edit :=
  { id := 11, file_path := "f".toList, start_line := some 5 }

/-- A pristine two-pane page: root 0, common ancestor 1, sidebar branch
2 with the sidebar control 3 inside, diff branch 4 with the files container
5 inside; 6 is the detached panel. -/
def twoPaneDoc : Dom :=
  { nextId := 7, root := 0, parentMap := [(1, 0), (2, 1), (3, 2), (4, 1), (5, 4)],
    layoutIds := [] }

/-- The two-pane page after the first successful attach. -/
def twoPaneAttached : Dom :=
  (attachPanel twoPaneDoc 6 (some (5, 4)) (some 3)).1

/-- A page that already carries a layout element 3 under 1, with files
container 2; 4 is the detached panel. -/
def layoutDoc : Dom :=
  { nextId := 5, root := 0, parentMap := [(1, 0), (2, 1), (3, 1)], layoutIds := [3] }

/-- That page after the first attach (panel adopted into the layout). -/
def layoutAttached : Dom :=
  (attachPanel layoutDoc 4 (some (2, 1)) none).1

/-- A page with no sidebar and no layout: files container 2 under 1; 3 is
the detached panel.  The first attach takes the wrap-primary-region
fallback. -/
def wrapDoc : Dom :=
  { nextId := 4, root := 0, parentMap := [(1, 0), (2, 1)], layoutIds := [] }

/-- That page after the first attach. -/
def wrapAttached : Dom :=
  (attachPanel wrapDoc 3 (some (2, 1)) none).1

/-- A message without a timestamp (id 1). -/
def noTsMsg1 : Message :=
  { id := 1, timestamp := none }

/-- A timestamped message (id 2). -/
def tsMsg2 : Message :=
  { id := 2, timestamp := some "2024-01-01T00:00:00Z".toList }

/-- A second message without a timestamp (id 3). -/
def noTsMsg3 : Message :=
  { id := 3, timestamp := none }

/-! ## C10: the `.json` acceptance precedes the legacy exclusion -/

/-- C10: `isLikelyMappingUrl` returns `true` for every URL string matching
the `.json`-suffix pattern (`.json` followed by a query, a fragment, or the
end of the string) — the legacy `/g/`-without-`/gm/` exclusion is only
evaluated after the acceptance checks, so it can never veto such a URL. -/
theorem json_suffix_passes_isLikelyMappingUrl (url : Str)
    (h : jsonSuffixMatch url = true) :
    isLikelyMappingUrl url = true := by
  have hne : url.isEmpty = false := by
    cases url with
    | nil => exact absurd h (by decide)
    | cons c cs => rfl
  unfold isLikelyMappingUrl
  rw [hne]
  simp only [Bool.false_eq_true, if_false, h, if_true]
  split
  · rfl
  split
  · rfl
  split
  · rfl
  rfl

/-- Witness for C10: a URL whose path carries the ambiguous legacy `/g/`
segment without `/gm/` still passes structural validation thanks to its
`.json` suffix. -/
theorem json_suffix_passes_isLikelyMappingUrl_witness :
    jsonSuffixMatch "https://host/g/abc.json".toList = true ∧
    isLikelyMappingUrl "https://host/g/abc.json".toList = true :=
  ⟨by decide, json_suffix_passes_isLikelyMappingUrl _ (by decide)⟩

/-! ## C4: candidate scoring, `/gm/` versus a `.json` suffix -/

/-- C4 counterexample: appending a `.json` suffix to a candidate that
contains the canonical `/gm/` path *raises* its score (the suffixed
candidate still contains `/gm/` and additionally earns the `.json` bonus),
so between the two the `.json`-suffixed candidate — not the plain `/gm/`
candidate — is selected. -/
theorem gm_candidate_loses_to_its_json_suffix :
    containsCI gmCandidate "/gm/".toList = true ∧
    gmJsonCandidate = gmCandidate ++ ".json".toList ∧
    scoreCandidate gmJsonCandidate > scoreCandidate gmCandidate ∧
    selectBestCandidate [gmCandidate, gmJsonCandidate] = some gmJsonCandidate := by
  decide

/-- Two Booleans agreeing on truth are equal. -/
theorem bool_eq_of_iff {a b : Bool} (h : a = true ↔ b = true) : a = b := by
  cases a <;> cases b <;> simp_all

/-- `containsSub` decides the infix relation. -/
theorem containsSub_iff {pat : Str} :
    ∀ {s : Str}, containsSub pat s = true ↔ pat <:+: s := by
  intro s
  induction s with
  | nil =>
    simp only [containsSub, List.infix_nil, List.isEmpty_iff]
  | cons c cs ih =>
    rw [containsSub, Bool.or_eq_true, List.isPrefixOf_iff_prefix, ih,
      List.infix_cons_iff]

/-- An infix of `s ++ x` whose first character does not occur in `s` is
already an infix of `x`. -/
theorem infix_append_of_head_notin {c : Char} {t x : Str} :
    ∀ s : Str, c ∉ s → (c :: t) <:+: s ++ x → (c :: t) <:+: x := by
  intro s
  induction s with
  | nil =>
    intro _ h
    simpa using h
  | cons d ds ih =>
    intro hc h
    rw [List.cons_append, List.infix_cons_iff] at h
    rcases h with h | h
    · exact absurd ((List.cons_prefix_cons.mp h).1 ▸ List.mem_cons_self d ds) hc
    · exact ih (fun hm => hc (List.mem_cons_of_mem d hm)) h

/-- Appending `.json` to a candidate does not affect a case-insensitive
match of a pattern whose last character is not one of `.json`'s: an
occurrence cannot straddle or sit inside the appended suffix. -/
theorem containsCI_append_json (x p : Str) (c : Char)
    (hlast : (lowerStr p).getLast? = some c) (hc : c ∉ ".json".toList) :
    containsCI (x ++ ".json".toList) p = containsCI x p := by
  apply bool_eq_of_iff
  unfold containsCI
  rw [containsSub_iff, containsSub_iff]
  have hl : lowerStr (x ++ ".json".toList) = lowerStr x ++ ".json".toList := by
    unfold lowerStr
    rw [List.map_append]
    rfl
  rw [hl]
  cases hr : (lowerStr p).reverse with
  | nil =>
    exfalso
    rw [← List.head?_reverse, hr] at hlast
    exact absurd hlast (by simp)
  | cons d ds =>
    have hcd : d = c := by
      rw [← List.head?_reverse, hr] at hlast
      simpa using hlast
    subst hcd
    constructor
    · intro h
      rw [← List.reverse_infix] at h ⊢
      rw [List.reverse_append, hr] at h
      rw [hr]
      exact infix_append_of_head_notin (".json".toList).reverse
        (fun hm => hc (List.mem_reverse.mp hm)) h
    · intro h
      exact h.trans (List.prefix_append _ _).isInfix

/-- Appending `.json` always makes the `.json`-suffix pattern match. -/
theorem jsonSuffixMatch_append (x : Str) :
    jsonSuffixMatch (x ++ ".json".toList) = true := by
  have he : endsWithStr (lowerStr (x ++ ".json".toList)) ".json".toList = true := by
    unfold endsWithStr lowerStr
    rw [List.map_append]
    have hfix : List.map charLower ".json".toList = ".json".toList := by decide
    rw [hfix, List.reverse_append, List.isPrefixOf_iff_prefix]
    exact List.prefix_append _ _
  unfold jsonSuffixMatch
  rw [he]
  simp

/-- A candidate containing `/gm/` always scores above the selection loop's
initial best of -1: the legacy exclusion cannot fire on it. -/
theorem scoreCandidate_pos_of_gm {x : Str}
    (hgm : containsCI x "/gm/".toList = true) :
    scoreCandidate x > -1 := by
  unfold scoreCandidate
  rw [hgm]
  simp only [Bool.not_true, Bool.and_false]
  split_ifs <;> first | omega | simp_all

/-- The selection loop picks the second of two candidates when it strictly
outscores a first candidate that itself beats the initial -1. -/
theorem selectBest_pair_snd {x y : Str} (hx : scoreCandidate x > -1)
    (hxy : scoreCandidate y > scoreCandidate x) :
    selectBestCandidate [x, y] = some y := by
  unfold selectBestCandidate
  simp only [List.foldl_cons, List.foldl_nil]
  rw [if_pos hx, if_pos hxy]

/-- C4 as amended: for any candidate `x` containing the canonical `/gm/`
path and not already carrying a `.json` suffix, appending `.json` raises the
score by exactly the `.json` bonus (+30) — the suffixed candidate still
contains `/gm/` — so between the two the `.json`-suffixed candidate is
selected; a `/gm/` candidate does outscore, and is selected over in either
order, a candidate that carries the `.json` suffix but lacks the `/gm/`
path. -/
theorem gm_scoring_amended (x : Str)
    (hgm : containsCI x "/gm/".toList = true)
    (hjs : jsonSuffixMatch x = false) :
    scoreCandidate (x ++ ".json".toList) = scoreCandidate x + 30 ∧
    selectBestCandidate [x, x ++ ".json".toList] = some (x ++ ".json".toList) ∧
    scoreCandidate gmCandidate > scoreCandidate jsonOnlyCandidate ∧
    selectBestCandidate [gmCandidate, jsonOnlyCandidate] = some gmCandidate ∧
    selectBestCandidate [jsonOnlyCandidate, gmCandidate] = some gmCandidate := by
  have hadd : scoreCandidate (x ++ ".json".toList) = scoreCandidate x + 30 := by
    unfold scoreCandidate
    rw [containsCI_append_json x "/gm/".toList '/' (by decide) (by decide),
      containsCI_append_json x "agentexport-map".toList 'p' (by decide) (by decide),
      containsCI_append_json x "gist.githubusercontent.com".toList 'm'
        (by decide) (by decide),
      containsCI_append_json x "/blob/".toList '/' (by decide) (by decide),
      containsCI_append_json x "agentexports.com".toList 'm' (by decide) (by decide),
      containsCI_append_json x "/v/".toList '/' (by decide) (by decide),
      containsCI_append_json x "/g/".toList '/' (by decide) (by decide),
      jsonSuffixMatch_append x, hjs]
    split_ifs <;> first | omega | simp_all
  refine ⟨hadd, ?_, by decide, by decide, by decide⟩
  exact selectBest_pair_snd (scoreCandidate_pos_of_gm hgm) (by omega)

/-- Witness for C4's amended theorem, at the representative `/gm/`
candidate. -/
theorem gm_scoring_amended_witness :
    scoreCandidate (gmCandidate ++ ".json".toList) = scoreCandidate gmCandidate + 30 ∧
    selectBestCandidate [gmCandidate, gmCandidate ++ ".json".toList] =
      some (gmCandidate ++ ".json".toList) ∧
    scoreCandidate gmCandidate > scoreCandidate jsonOnlyCandidate ∧
    selectBestCandidate [gmCandidate, jsonOnlyCandidate] = some gmCandidate ∧
    selectBestCandidate [jsonOnlyCandidate, gmCandidate] = some gmCandidate :=
  gm_scoring_amended gmCandidate (by decide) (by decide)

/-! ## C2: `decryptBlob` validation thresholds -/

/-- C2 counterexample: a 12-byte payload presented with a well-formed
32-byte key is rejected with the `InvalidBlob` error, although the claim
says every payload of at least 12 bytes proceeds (the code requires
`byteLength >= 13`). -/
theorem twelve_byte_blob_rejected :
    base64UrlDecode demoKey = some (List.replicate 32 0) ∧
    (List.replicate 12 (0 : Nat)).length = 12 ∧
    decryptBlob (List.replicate 12 0) demoKey = .invalidBlob := by
  decide

/-- C2 as amended: when the key decodes, `decryptBlob` fails with
`InvalidKey` exactly when the decoded key is not 32 bytes; given a 32-byte
key it fails with `InvalidBlob` exactly when the payload is shorter than 13
bytes, and for every payload of at least 13 bytes it proceeds, taking the
first 12 bytes as the nonce and the (necessarily non-empty) remainder as the
AES-256-GCM ciphertext. -/
theorem decryptBlob_validation (buffer : List Nat) (key : Str)
    (keyBytes : List Nat) (hdec : base64UrlDecode key = some keyBytes) :
    (decryptBlob buffer key = .invalidKey ↔ keyBytes.length ≠ 32) ∧
    (keyBytes.length = 32 →
      ((decryptBlob buffer key = .invalidBlob ↔ buffer.length < 13) ∧
        (13 ≤ buffer.length →
          decryptBlob buffer key = .proceed (buffer.take 12) (buffer.drop 12)))) := by
  unfold decryptBlob
  rw [hdec]
  by_cases hk : keyBytes.length = 32
  · simp only [hk, ne_eq, not_true_eq_false, if_false, iff_false]
    refine ⟨?_, fun _ => ?_⟩
    · split <;> simp
    · constructor
      · split <;> simp_all
      · intro hb
        rw [if_neg (by omega)]
  · simp [hk]

/-- Witness for C2's amended theorem, at a 20-byte payload and the 43-`A`
key. -/
theorem decryptBlob_validation_witness :
    base64UrlDecode demoKey = some (List.replicate 32 0) ∧
    ((decryptBlob (List.range 20) demoKey = .invalidKey ↔
        (List.replicate 32 (0 : Nat)).length ≠ 32) ∧
      ((List.replicate 32 (0 : Nat)).length = 32 →
        ((decryptBlob (List.range 20) demoKey = .invalidBlob ↔
            (List.range 20).length < 13) ∧
          (13 ≤ (List.range 20).length →
            decryptBlob (List.range 20) demoKey =
              .proceed ((List.range 20).take 12) ((List.range 20).drop 12))))) :=
  ⟨by decide, decryptBlob_validation (List.range 20) demoKey (List.replicate 32 0) (by decide)⟩

/-! ## C3: the fragment is split off before retrieval -/

/-- C3 counterexample: two references that differ only in their URL fragment
(one empty, one carrying a key) do not always produce the same request URL —
`normalizeMappingUrl` rewrites a `/v/` path to `/blob/` only when a fragment
is present, so the fragment's presence changes the requested path. -/
theorem fragment_presence_changes_request_url :
    vPathRefKeyed = { vPathRef with fragment := "k".toList } ∧
    fetchRequestUrl vPathRef defaultProxyBase ≠
      fetchRequestUrl vPathRefKeyed defaultProxyBase := by
  decide

/-- C3 as amended: the URL handed to `fetchMappingResource` never carries a
fragment — the fragment is split off as the optional symmetric key before
any bytes are fetched — and any two references that differ only in their
non-empty URL fragments produce the identical request URL, so the key itself
is never part of a request. -/
theorem fetchRequestUrl_fragment_free (raw proxyBase u : JsUrl) (f1 f2 : Str)
    (h1 : f1 ≠ []) (h2 : f2 ≠ []) :
    (fetchRequestUrl raw proxyBase).fragment = [] ∧
    fetchRequestUrl { u with fragment := f1 } proxyBase =
      fetchRequestUrl { u with fragment := f2 } proxyBase := by
  have e1 : f1.isEmpty = false := by
    cases f1 with
    | nil => exact absurd rfl h1
    | cons c cs => rfl
  have e2 : f2.isEmpty = false := by
    cases f2 with
    | nil => exact absurd rfl h2
    | cons c cs => rfl
  constructor
  · simp only [fetchRequestUrl, proxiedUrlFor]
    split <;> rfl
  · unfold fetchRequestUrl normalizeMappingUrl rewriteVPath
    dsimp only
    rw [e1, e2]

/-- Witness for C3's amended theorem at concrete references. -/
theorem fetchRequestUrl_fragment_free_witness :
    (fetchRequestUrl vPathRefKeyed defaultProxyBase).fragment = [] ∧
    fetchRequestUrl { vPathRef with fragment := "k".toList } defaultProxyBase =
      fetchRequestUrl { vPathRef with fragment := "kk".toList } defaultProxyBase :=
  ⟨(fetchRequestUrl_fragment_free vPathRefKeyed defaultProxyBase vPathRef
      "k".toList "kk".toList (by decide) (by decide)).1,
   (fetchRequestUrl_fragment_free vPathRefKeyed defaultProxyBase vPathRef
      "k".toList "kk".toList (by decide) (by decide)).2⟩

/-! ## C5: resolution priority of `resolveMappingUrl` -/

/-- Whatever passes `isLikelyMappingUrl` is non-empty. -/
theorem isLikely_nonempty {c : Str} (h : isLikelyMappingUrl c = true) :
    c.isEmpty = false := by
  cases c with
  | nil => exact absurd h (by decide)
  | cons a as => rfl

/-- C5: resolution priority.  A structurally valid reference in the current
view wins and is written to the cache; otherwise a structurally valid
reference re-derived from the re-fetched thread wins — in preference to any
cached value — and is written to the cache; the structurally validated
cached value is returned only when both fail; otherwise the result is
null. -/
theorem resolveMappingUrl_priority (dom cached fetched : Option Str) :
    (∀ da, dom = some da → isLikelyMappingUrl da = true →
      resolveMappingUrl true dom cached fetched = (some da, some da)) ∧
    (likelyOpt dom = false → ∀ f, fetched = some f → isLikelyMappingUrl f = true →
      resolveMappingUrl true dom cached fetched = (some f, some f)) ∧
    (likelyOpt dom = false → likelyOpt fetched = false →
      ∀ c, cached = some c → cacheValid cached = true →
      resolveMappingUrl true dom cached fetched = (some c, some c)) ∧
    (likelyOpt dom = false → likelyOpt fetched = false → cacheValid cached = false →
      (resolveMappingUrl true dom cached fetched).1 = none) := by
  refine ⟨?_, ?_, ?_, ?_⟩
  · intro da hda hl
    subst hda
    simp [resolveMappingUrl, likelyOpt, hl]
  · intro hdom f hf hlf
    subst hf
    have hlo : likelyOpt (some f) = true := by simp [likelyOpt, hlf]
    simp [resolveMappingUrl, hdom, hlo]
  · intro hdom hfet c hc hcv
    subst hc
    have htr : jsTruthyStr (some c) = true := by
      have hl : isLikelyMappingUrl c = true := by
        have hv := hcv
        unfold cacheValid at hv
        rw [Bool.and_eq_true] at hv
        exact hv.1
      simp [jsTruthyStr, isLikely_nonempty hl]
    simp [resolveMappingUrl, hdom, hfet, hcv, htr]
  · intro hdom hfet hcv
    simp [resolveMappingUrl, hdom, hfet, hcv]

/-- Witness for C5 at a concrete canonical reference found in the view. -/
theorem resolveMappingUrl_priority_witness :
    resolveMappingUrl true (some gmCandidate) none none =
      (some gmCandidate, some gmCandidate) :=
  (resolveMappingUrl_priority (some gmCandidate) none none).1
    gmCandidate rfl (by decide)

/-! ## C6: cache invalidation and single retry in `init` -/

/-- C6: when resolution produced the cached reference and fetching it fails,
`init` removes the conversation's cache entry and retries resolution exactly
once — the retry runs with the cache entry absent, so it can only use a
freshly re-derived reference — and the error is surfaced only when that
retry also fails or nothing can be re-derived; in particular, when the
second pass finds nothing at all, the flow ends in the error panel with the
cache entry still absent. -/
theorem init_invalidates_cache_and_retries_once
    (cache0 dom1 fetched1 dom2 fetched2 : Option Str) (fetchOk : Str → Bool)
    (c : Str) (hdom : likelyOpt dom1 = false) (hfet : likelyOpt fetched1 = false)
    (hc : cache0 = some c) (hcv : cacheValid cache0 = true)
    (hfail : fetchOk c = false) :
    (initMappingFlow true cache0 dom1 fetched1 dom2 fetched2 fetchOk =
      match (resolveMappingUrl true dom2 none fetched2).1 with
      | some u2 =>
        if fetchOk u2 then
          (.rendered u2, (resolveMappingUrl true dom2 none fetched2).2)
        else (.errorShown, (resolveMappingUrl true dom2 none fetched2).2)
      | none => (.errorShown, (resolveMappingUrl true dom2 none fetched2).2)) ∧
    (likelyOpt dom2 = false → likelyOpt fetched2 = false →
      initMappingFlow true cache0 dom1 fetched1 dom2 fetched2 fetchOk =
        (.errorShown, none)) := by
  subst hc
  have hr1 : resolveMappingUrl true dom1 (some c) fetched1 = (some c, some c) :=
    (resolveMappingUrl_priority dom1 (some c) fetched1).2.2.1 hdom hfet c rfl hcv
  constructor
  · unfold initMappingFlow
    rw [hr1]
    simp [hfail]
  · intro hdom2 hfet2
    have hr2 : resolveMappingUrl true dom2 none fetched2 = (none, none) := by
      simp [resolveMappingUrl, hdom2, hfet2, jsTruthyStr]
    unfold initMappingFlow
    rw [hr1]
    simp [hfail, hr2]

/-- Witness for C6: the cached reference fails to fetch, the cache entry is
cleared, and the retry succeeds on a reference re-derived from the second
pass over the page. -/
theorem init_invalidates_cache_and_retries_once_witness :
    initMappingFlow true (some gmCandidate) none none (some jsonOnlyCandidate) none
        (fun u => u != gmCandidate) =
      (.rendered jsonOnlyCandidate, some jsonOnlyCandidate) := by
  have h := init_invalidates_cache_and_retries_once (some gmCandidate) none none
    (some jsonOnlyCandidate) none (fun u => u != gmCandidate) gmCandidate
    rfl rfl rfl (by decide) (by decide)
  rw [h.1]
  decide

/-! ## C8: `normalizeMappingUrl` is idempotent -/

/-- `replaceFirst` on a string that starts with the (non-empty) pattern
replaces exactly that leading occurrence. -/
theorem replaceFirst_of_leading {pat s : Str} (rep : Str) (hne : pat ≠ [])
    (h : List.isPrefixOf pat s = true) :
    replaceFirst pat rep s = rep ++ s.drop pat.length := by
  cases s with
  | nil =>
    cases pat with
    | nil => exact absurd rfl hne
    | cons a as => simp [List.isPrefixOf] at h
  | cons c cs => simp [replaceFirst, h]

/-- `/v/` never leads a path rewritten to `/blob/`. -/
theorem v_leads_blob_false (t : Str) :
    List.isPrefixOf "/v/".toList ("/blob/".toList ++ t) = false := rfl

/-- `/g/` never leads a path rewritten to `/blob/`. -/
theorem g_leads_blob_false (t : Str) :
    List.isPrefixOf "/g/".toList ("/blob/".toList ++ t) = false := rfl

/-- `/v/` never leads a path rewritten to `/gm/`. -/
theorem v_leads_gm_false (t : Str) :
    List.isPrefixOf "/v/".toList ("/gm/".toList ++ t) = false := rfl

/-- `/g/` never leads a path rewritten to `/gm/` (the third character is `m`,
not `/`). -/
theorem g_leads_gm_false (t : Str) :
    List.isPrefixOf "/g/".toList ("/gm/".toList ++ t) = false := rfl

/-- A Boolean known to be false is not true. -/
theorem not_eq_true_of_eq_false {c : Bool} (h : c = false) : ¬c = true := by
  simp [h]

/-- `rewriteVPath` when its condition holds. -/
theorem rewriteVPath_of_cond (u : JsUrl)
    (hv : (!u.fragment.isEmpty && List.isPrefixOf "/v/".toList u.pathname) = true) :
    rewriteVPath u = "/blob/".toList ++ u.pathname.drop 3 := by
  have hp : List.isPrefixOf "/v/".toList u.pathname = true := by
    rw [Bool.and_eq_true] at hv
    exact hv.2
  unfold rewriteVPath
  rw [if_pos hv, replaceFirst_of_leading _ (by decide) hp]
  rfl

/-- `rewriteVPath` when its condition fails. -/
theorem rewriteVPath_of_not (u : JsUrl)
    (hv : (!u.fragment.isEmpty && List.isPrefixOf "/v/".toList u.pathname) = false) :
    rewriteVPath u = u.pathname := by
  unfold rewriteVPath
  rw [if_neg (not_eq_true_of_eq_false hv)]

/-- `rewriteGPath` when its condition holds. -/
theorem rewriteGPath_of_cond (p : Str)
    (hg : List.isPrefixOf "/g/".toList p = true) :
    rewriteGPath p = "/gm/".toList ++ p.drop 3 := by
  unfold rewriteGPath
  rw [if_pos hg, replaceFirst_of_leading _ (by decide) hg]
  rfl

/-- `rewriteGPath` when its condition fails. -/
theorem rewriteGPath_of_not (p : Str)
    (hg : List.isPrefixOf "/g/".toList p = false) :
    rewriteGPath p = p := by
  unfold rewriteGPath
  rw [if_neg (not_eq_true_of_eq_false hg)]

/-- When neither rewrite condition holds, `normalizeMappingUrl` is the
identity. -/
theorem normalizeMappingUrl_fix (u : JsUrl)
    (h1 : (!u.fragment.isEmpty && List.isPrefixOf "/v/".toList u.pathname) = false)
    (h2 : List.isPrefixOf "/g/".toList u.pathname = false) :
    normalizeMappingUrl u = u := by
  unfold normalizeMappingUrl
  rw [rewriteVPath_of_not u h1, rewriteGPath_of_not _ h2]

/-- C8: `normalizeMappingUrl` is idempotent — applying it twice yields the
same URL as applying it once, for every parsed input, including the legacy
`/v/`-path-with-fragment and legacy `/g/` shorthand cases (whose rewritten
paths start `/blob/` and `/gm/` and so trigger neither rewrite again). -/
theorem normalizeMappingUrl_idempotent (u : JsUrl) :
    normalizeMappingUrl (normalizeMappingUrl u) = normalizeMappingUrl u := by
  by_cases hv : (!u.fragment.isEmpty && List.isPrefixOf "/v/".toList u.pathname) = true
  · have h1 : normalizeMappingUrl u =
        { u with pathname := "/blob/".toList ++ u.pathname.drop 3 } := by
      unfold normalizeMappingUrl
      rw [rewriteVPath_of_cond u hv, rewriteGPath_of_not _ (g_leads_blob_false _)]
    rw [h1]
    refine normalizeMappingUrl_fix _ ?_ ?_
    · dsimp only
      rw [v_leads_blob_false, Bool.and_false]
    · dsimp only
      exact g_leads_blob_false _
  · replace hv : (!u.fragment.isEmpty && List.isPrefixOf "/v/".toList u.pathname) = false :=
      Bool.not_eq_true _ ▸ hv
    by_cases hg : List.isPrefixOf "/g/".toList u.pathname = true
    · have h1 : normalizeMappingUrl u =
          { u with pathname := "/gm/".toList ++ u.pathname.drop 3 } := by
        unfold normalizeMappingUrl
        rw [rewriteVPath_of_not u hv, rewriteGPath_of_cond _ hg]
      rw [h1]
      refine normalizeMappingUrl_fix _ ?_ ?_
      · dsimp only
        rw [v_leads_gm_false, Bool.and_false]
      · dsimp only
        exact g_leads_gm_false _
    · replace hg : List.isPrefixOf "/g/".toList u.pathname = false :=
        Bool.not_eq_true _ ▸ hg
      rw [normalizeMappingUrl_fix u hv hg, normalizeMappingUrl_fix u hv hg]

/-! ## C7: anchors derived for an edit -/

/-- A `filterMap` whose function succeeds on every element preserves
length. -/
theorem length_filterMap_of_isSome {α β : Type} (f : α → Option β) :
    ∀ l : List α, (∀ x ∈ l, (f x).isSome) → (l.filterMap f).length = l.length := by
  intro l
  induction l with
  | nil => intro _; rfl
  | cons x xs ih =>
    intro h
    rcases Option.isSome_iff_exists.mp (h x (by simp)) with ⟨y, hy⟩
    simp [List.filterMap_cons, hy, ih fun z hz => h z (by simp [hz])]

/-- C7 counterexample: for an edit with no linked hunk ids and no
`start_line`, `renderPanel` derives no anchor at all — not the claimed sole
anchor at `(edit.file_path, edit.start_line)` — because the push is guarded
by `if (edit.start_line)`. -/
theorem edit_without_start_line_has_no_anchor :
    hunkIdsByEdit [] noLineEdit.id = [] ∧
    anchorsForEdit [] [] noLineEdit = [] := by
  decide

/-- C7 as amended: with no hunk ids linked via `edit_hunks`, the sole anchor
is `(edit.file_path, edit.start_line)` provided `edit.start_line` is present
and non-zero, and no anchor is derived otherwise; with linked hunk ids,
there is one anchor per id that resolves to a hunk, at
`(hunk.file_path, hunk.new_start)` — in particular one per linked hunk when
every id resolves. -/
theorem anchorsForEdit_characterization (links : List Link) (hunks : List Hunk)
    (edit : Edit) :
    (hunkIdsByEdit links edit.id = [] →
      (∀ n, edit.start_line = some n → n ≠ 0 →
        anchorsForEdit links hunks edit =
          [{ file_path := edit.file_path, line := n, edit := edit, hunk := none }]) ∧
      (jsTruthyNat edit.start_line = false → anchorsForEdit links hunks edit = [])) ∧
    (hunkIdsByEdit links edit.id ≠ [] →
      anchorsForEdit links hunks edit =
        (hunkIdsByEdit links edit.id).filterMap (fun hunkId =>
          (hunksByIdGet hunks hunkId).map fun h =>
            { file_path := h.file_path, line := h.new_start,
              edit := edit, hunk := some h }) ∧
      ((∀ hid ∈ hunkIdsByEdit links edit.id, (hunksByIdGet hunks hid).isSome) →
        (anchorsForEdit links hunks edit).length =
          (hunkIdsByEdit links edit.id).length)) := by
  constructor
  · intro hids
    have hempty : (hunkIdsByEdit links edit.id).isEmpty = true := by
      rw [hids]; rfl
    constructor
    · intro n hn hnz
      unfold anchorsForEdit
      rw [if_pos hempty]
      simp [jsTruthyNat, hn, hnz]
    · intro hfalse
      unfold anchorsForEdit
      rw [if_pos hempty]
      simp [hfalse]
  · intro hids
    have hempty : (hunkIdsByEdit links edit.id).isEmpty = false := by
      cases h : hunkIdsByEdit links edit.id with
      | nil => exact absurd h hids
      | cons a as => rfl
    constructor
    · unfold anchorsForEdit
      rw [if_neg (not_eq_true_of_eq_false hempty)]
    · intro hall
      unfold anchorsForEdit
      rw [if_neg (not_eq_true_of_eq_false hempty)]
      exact length_filterMap_of_isSome _ _ fun hid hmem => by
        rcases Option.isSome_iff_exists.mp (hall hid hmem) with ⟨h, hh⟩
        simp [hh]

/-- Witness for C7's amended theorem: an unlinked edit with start line 5
yields exactly its own location as the sole anchor. -/
theorem anchorsForEdit_characterization_witness :
    anchorsForEdit [] [] lineEdit =
      [{ file_path := lineEdit.file_path, line := 5, edit := lineEdit, hunk := none }] :=
  ((anchorsForEdit_characterization [] [] lineEdit).1 rfl).1 5 rfl (by decide)

/-! ## C9: `attachPanel` is idempotent -/

/-- Reparenting never allocates. -/
theorem setParent_nextId (d : Dom) (n p : Nat) :
    (setParent d n p).nextId = d.nextId := rfl

/-- Reparenting never changes the id registry. -/
theorem setParent_layoutIds (d : Dom) (n p : Nat) :
    (setParent d n p).layoutIds = d.layoutIds := rfl

/-- When a layout element is already in the document, the two-pane branch of
`attachPanel` reuses it: whatever it returns, it has allocated no node and
registered no new layout id, and it reports success. -/
theorem attachViaSidebar_preserves (d : Dom) (panel container sb L : Nat)
    (h : getLayoutElem d = some L) (res : Dom × Bool)
    (hres : attachViaSidebar d panel container sb = some res) :
    res.1.nextId = d.nextId ∧ res.1.layoutIds = d.layoutIds ∧ res.2 = true := by
  simp only [attachViaSidebar, h] at hres
  split at hres
  · exact absurd hres (by simp)
  split at hres
  · exact absurd hres (by simp)
  split at hres
  case _ sidebarChild diffChild heq1 heq2 =>
    split at hres
    · cases hres
      refine ⟨?_, ?_, rfl⟩ <;>
        · dsimp only
          split <;> split <;> split <;>
            simp [setParent_nextId, setParent_layoutIds]
    · exact absurd hres (by simp)
  all_goals exact absurd hres (by simp)

/-- C9: `attachPanel` is idempotent with respect to the document.  In
general, whenever an element with id `agentexport-layout` is already in the
document — which is the case after any successful attach — a further
`attachPanel` call allocates no element (so no second layout wrapper and no
duplicate panel can appear) and reports success whenever the files container
is found.  Concretely, in each branch — two-pane layout, pre-existing
layout, and the wrap-primary-region fallback — a second invocation with the
same panel leaves the attached document exactly unchanged. -/
theorem attachPanel_idempotent :
    (∀ d panel target sidebar L, getLayoutElem d = some L →
      ((attachPanel d panel target sidebar).1.nextId = d.nextId ∧
        (attachPanel d panel target sidebar).1.layoutIds = d.layoutIds ∧
        (attachPanel d panel target sidebar).2 = target.isSome)) ∧
    ((attachPanel twoPaneDoc 6 (some (5, 4)) (some 3)).2 = true ∧
      twoPaneAttached.layoutIds = [7] ∧
      attachPanel twoPaneAttached 6 (some (5, 4)) (some 3) = (twoPaneAttached, true)) ∧
    ((attachPanel layoutDoc 4 (some (2, 1)) none).2 = true ∧
      layoutAttached.layoutIds = [3] ∧
      attachPanel layoutAttached 4 (some (2, 1)) none = (layoutAttached, true)) ∧
    ((attachPanel wrapDoc 3 (some (2, 1)) none).2 = true ∧
      wrapAttached.layoutIds = [4] ∧
      attachPanel wrapAttached 3 (some (2, 4)) none = (wrapAttached, true)) := by
  refine ⟨?_, by decide, by decide, by decide⟩
  intro d panel target sidebar L h
  cases target with
  | none => exact ⟨rfl, rfl, rfl⟩
  | some tp =>
    obtain ⟨container, parentEl⟩ := tp
    cases sidebar with
    | none =>
      simp only [attachPanel, h]
      refine ⟨?_, ?_, rfl⟩ <;>
        · split <;> simp [setParent_nextId, setParent_layoutIds]
    | some sb =>
      cases hva : attachViaSidebar d panel container sb with
      | none =>
        simp only [attachPanel, hva, h]
        refine ⟨?_, ?_, rfl⟩ <;>
          · split <;> simp [setParent_nextId, setParent_layoutIds]
      | some res =>
        have hp := attachViaSidebar_preserves d panel container sb L h res hva
        simp only [attachPanel, hva]
        exact ⟨hp.1, hp.2.1, hp.2.2⟩

/-- Witness for C9's general clause, on the page that already carries a
layout element. -/
theorem attachPanel_idempotent_witness :
    (attachPanel layoutDoc 4 (some (2, 1)) none).1.nextId = layoutDoc.nextId ∧
    (attachPanel layoutDoc 4 (some (2, 1)) none).1.layoutIds = layoutDoc.layoutIds ∧
    (attachPanel layoutDoc 4 (some (2, 1)) none).2 =
      (some ((2 : Nat), (1 : Nat))).isSome :=
  attachPanel_idempotent.1 layoutDoc 4 (some (2, 1)) none 3 (by decide)

/-! ## C1: the rendered message order -/

/-- Characters with equal code points are equal. -/
theorem char_eq_of_toNat_eq {a b : Char} (h : a.toNat = b.toNat) : a = b :=
  Char.ext (UInt32.ext h)

/-- `lexLt` is irreflexive. -/
theorem lexLt_irrefl (a : Str) : lexLt a a = false := by
  induction a with
  | nil => rfl
  | cons c cs ih => simp [lexLt, ih]

/-- Nothing is `lexLt`-below the empty string. -/
theorem lexLt_nil_right (a : Str) : lexLt a [] = false := by
  cases a <;> rfl

/-- `lexLt` is transitive. -/
theorem lexLt_trans {a b c : Str} (h1 : lexLt a b = true) (h2 : lexLt b c = true) :
    lexLt a c = true := by
  induction a generalizing b c with
  | nil =>
    cases b with
    | nil => simp [lexLt] at h1
    | cons y ys =>
      cases c with
      | nil => simp [lexLt_nil_right] at h2
      | cons z zs => rfl
  | cons x xs ih =>
    cases b with
    | nil => simp [lexLt_nil_right] at h1
    | cons y ys =>
      cases c with
      | nil => simp [lexLt_nil_right] at h2
      | cons z zs =>
        simp only [lexLt] at h1 h2 ⊢
        by_cases hxy : x = y
        · subst hxy
          rw [if_pos rfl] at h1
          by_cases hyz : x = z
          · subst hyz
            rw [if_pos rfl] at h2
            rw [if_pos rfl]
            exact ih h1 h2
          · rw [if_neg hyz] at h2
            rw [if_neg hyz]
            exact h2
        · rw [if_neg hxy] at h1
          by_cases hyz : y = z
          · subst hyz
            rw [if_neg hxy]
            exact h1
          · rw [if_neg hyz] at h2
            have hx : x.toNat < y.toNat := of_decide_eq_true h1
            have hy : y.toNat < z.toNat := of_decide_eq_true h2
            have hxz : x ≠ z := fun he => by subst he; omega
            rw [if_neg hxz]
            exact decide_eq_true (by omega)

/-- Distinct strings are `lexLt`-comparable one way or the other. -/
theorem lexLt_connex {a b : Str} (h : a ≠ b) :
    lexLt a b = true ∨ lexLt b a = true := by
  induction a generalizing b with
  | nil =>
    cases b with
    | nil => exact absurd rfl h
    | cons y ys => exact Or.inl rfl
  | cons x xs ih =>
    cases b with
    | nil => exact Or.inr rfl
    | cons y ys =>
      by_cases hxy : x = y
      · subst hxy
        have hne : xs ≠ ys := fun he => h (by rw [he])
        rcases ih hne with h1 | h1
        · exact Or.inl (by simp [lexLt, h1])
        · exact Or.inr (by simp [lexLt, h1])
      · have hnat : x.toNat ≠ y.toNat := fun he => hxy (char_eq_of_toNat_eq he)
        rcases Nat.lt_or_ge x.toNat y.toNat with hlt | hge
        · exact Or.inl (by simp [lexLt, hxy, hlt])
        · have hgt : y.toNat < x.toNat := by omega
          exact Or.inr (by simp [lexLt, Ne.symm hxy, hgt])

/-- The sign of `lexCmp` is non-positive exactly for `lexLt`-or-equal. -/
theorem lexCmp_nonpos {a b : Str} :
    lexCmp a b ≤ 0 ↔ (lexLt a b = true ∨ a = b) := by
  unfold lexCmp
  split
  case isTrue h => simp [h]
  case isFalse h =>
    split
    case isTrue h2 => simp [h2]
    case isFalse h2 =>
      constructor
      · intro hcon
        exact absurd hcon (by omega)
      · intro hcon
        rcases hcon with hcon | hcon
        · exact absurd hcon h
        · exact absurd hcon h2

/-- The second comparator induces a total relation. -/
instance : IsTotal Message leByTime := by
  refine ⟨fun a b => ?_⟩
  show cmpByTime a b ≤ 0 ∨ cmpByTime b a ≤ 0
  unfold cmpByTime
  rcases eq_or_ne (msgTime a) (msgTime b) with he | hne
  · exact Or.inl (lexCmp_nonpos.mpr (Or.inr he))
  · rcases lexLt_connex hne with h | h
    · exact Or.inl (lexCmp_nonpos.mpr (Or.inl h))
    · exact Or.inr (lexCmp_nonpos.mpr (Or.inl h))

/-- The second comparator induces a transitive relation. -/
instance : IsTrans Message leByTime := by
  refine ⟨fun a b c h1 h2 => ?_⟩
  have g1 : lexCmp (msgTime a) (msgTime b) ≤ 0 := h1
  have g2 : lexCmp (msgTime b) (msgTime c) ≤ 0 := h2
  show lexCmp (msgTime a) (msgTime c) ≤ 0
  rcases lexCmp_nonpos.mp g1 with ha | ha <;> rcases lexCmp_nonpos.mp g2 with hb | hb
  · exact lexCmp_nonpos.mpr (Or.inl (lexLt_trans ha hb))
  · exact lexCmp_nonpos.mpr (Or.inl (hb ▸ ha))
  · exact lexCmp_nonpos.mpr (Or.inl (ha ▸ hb))
  · exact lexCmp_nonpos.mpr (Or.inr (ha.trans hb))

/-- Value of the first comparator when both operands carry timestamps. -/
theorem cmpTTI_both (idx : Nat → Nat) (a b : Message)
    (ha : msgTime a ≠ []) (hb : msgTime b ≠ []) :
    cmpByTimeThenIndex idx a b = lexCmp (msgTime a) (msgTime b) := by
  unfold cmpByTimeThenIndex
  rw [if_pos ⟨ha, hb⟩]

/-- Value of the first comparator when only the first operand has a
timestamp. -/
theorem cmpTTI_left (idx : Nat → Nat) (a b : Message)
    (ha : msgTime a ≠ []) (hb : msgTime b = []) :
    cmpByTimeThenIndex idx a b = -1 := by
  unfold cmpByTimeThenIndex
  rw [if_neg (by simp [hb]), if_pos ha]

/-- Value of the first comparator when only the second operand has a
timestamp. -/
theorem cmpTTI_right (idx : Nat → Nat) (a b : Message)
    (ha : msgTime a = []) (hb : msgTime b ≠ []) :
    cmpByTimeThenIndex idx a b = 1 := by
  unfold cmpByTimeThenIndex
  rw [if_neg (by simp [ha]), if_neg (by simp [ha]), if_pos hb]

/-- Value of the first comparator when neither operand has a timestamp. -/
theorem cmpTTI_none (idx : Nat → Nat) (a b : Message)
    (ha : msgTime a = []) (hb : msgTime b = []) :
    cmpByTimeThenIndex idx a b = (idx a.id : Int) - idx b.id := by
  unfold cmpByTimeThenIndex
  rw [if_neg (by simp [ha]), if_neg (by simp [ha]), if_neg (by simp [hb])]

/-- The first comparator induces a total relation. -/
instance (idx : Nat → Nat) : IsTotal Message (leByTimeThenIndex idx) := by
  refine ⟨fun a b => ?_⟩
  show cmpByTimeThenIndex idx a b ≤ 0 ∨ cmpByTimeThenIndex idx b a ≤ 0
  by_cases ha : msgTime a = [] <;> by_cases hb : msgTime b = []
  · rw [cmpTTI_none idx a b ha hb, cmpTTI_none idx b a hb ha]
    omega
  · rw [cmpTTI_right idx a b ha hb, cmpTTI_left idx b a hb ha]
    omega
  · rw [cmpTTI_left idx a b ha hb]
    omega
  · rw [cmpTTI_both idx a b ha hb, cmpTTI_both idx b a hb ha]
    rcases eq_or_ne (msgTime a) (msgTime b) with he | hne
    · exact Or.inl (lexCmp_nonpos.mpr (Or.inr he))
    · rcases lexLt_connex hne with h | h
      · exact Or.inl (lexCmp_nonpos.mpr (Or.inl h))
      · exact Or.inr (lexCmp_nonpos.mpr (Or.inl h))

/-- The first comparator induces a transitive relation. -/
instance (idx : Nat → Nat) : IsTrans Message (leByTimeThenIndex idx) := by
  refine ⟨fun a b c h1 h2 => ?_⟩
  have g1 : cmpByTimeThenIndex idx a b ≤ 0 := h1
  have g2 : cmpByTimeThenIndex idx b c ≤ 0 := h2
  show cmpByTimeThenIndex idx a c ≤ 0
  by_cases ha : msgTime a = [] <;> by_cases hb : msgTime b = [] <;>
    by_cases hc : msgTime c = []
  · rw [cmpTTI_none idx a b ha hb] at g1
    rw [cmpTTI_none idx b c hb hc] at g2
    rw [cmpTTI_none idx a c ha hc]
    omega
  · rw [cmpTTI_right idx b c hb hc] at g2
    omega
  · rw [cmpTTI_right idx a b ha hb] at g1
    omega
  · rw [cmpTTI_right idx a b ha hb] at g1
    omega
  · rw [cmpTTI_left idx a c ha hc]
    omega
  · rw [cmpTTI_right idx b c hb hc] at g2
    omega
  · rw [cmpTTI_left idx a c ha hc]
    omega
  · rw [cmpTTI_both idx a b ha hb] at g1
    rw [cmpTTI_both idx b c hb hc] at g2
    rw [cmpTTI_both idx a c ha hc]
    rcases lexCmp_nonpos.mp g1 with u1 | u1 <;> rcases lexCmp_nonpos.mp g2 with u2 | u2
    · exact lexCmp_nonpos.mpr (Or.inl (lexLt_trans u1 u2))
    · exact lexCmp_nonpos.mpr (Or.inl (u2 ▸ u1))
    · exact lexCmp_nonpos.mpr (Or.inl (u1 ▸ u2))
    · exact lexCmp_nonpos.mpr (Or.inr (u1.trans u2))

/-- Folding `upsert` over messages with pairwise-distinct ids just appends
them: `Map` deduplication is the identity there. -/
theorem foldl_upsert_of_nodup :
    ∀ (msgs : List Message) (acc : List Message),
      msgs.Pairwise (fun a b => a.id ≠ b.id) →
      (∀ a ∈ acc, ∀ b ∈ msgs, a.id ≠ b.id) →
      msgs.foldl upsert acc = acc ++ msgs := by
  intro msgs
  induction msgs with
  | nil => intro acc _ _; simp
  | cons m rest ih =>
    intro acc hp hdisj
    have hany : acc.any (fun x => x.id == m.id) = false := by
      rw [List.any_eq_false]
      intro x hx
      simp only [beq_iff_eq]
      exact hdisj x hx m (by simp)
    have hu : upsert acc m = acc ++ [m] := by
      unfold upsert
      rw [if_neg (not_eq_true_of_eq_false hany)]
    rw [List.foldl_cons, hu,
      ih (acc ++ [m]) (List.pairwise_cons.mp hp).2 ?_]
    · simp
    · intro a ha b hb
      rcases List.mem_append.mp ha with h | h
      · exact hdisj a h b (List.mem_cons_of_mem m hb)
      · have : a = m := by simpa using h
        subst this
        exact (List.pairwise_cons.mp hp).1 b hb

/-- With pairwise-distinct ids, `messagesByIdList` is the original list. -/
theorem messagesByIdList_eq (msgs : List Message)
    (hids : msgs.Pairwise fun a b => a.id ≠ b.id) :
    messagesByIdList msgs = msgs := by
  unfold messagesByIdList
  rw [foldl_upsert_of_nodup msgs [] hids (by simp)]
  rfl

/-- `indexById` at the head's own id is 0. -/
theorem indexById_cons_self (x : Message) (rest : List Message) :
    indexById (x :: rest) x.id = 0 := by
  unfold indexById
  have hx : (x.id == x.id) = true := by simp
  simp [List.findIdx_cons, hx]

/-- `indexById` for an id present in the tail but not the head shifts by
one. -/
theorem indexById_cons_ne (x : Message) (rest : List Message) (i : Nat)
    (hne : x.id ≠ i) (hmem : rest.any (fun m => m.id == i) = true) :
    indexById (x :: rest) i = indexById rest i + 1 := by
  unfold indexById
  have hx : (x.id == i) = false := by simp [hne]
  rw [List.any_cons, hx, Bool.false_or, hmem, if_pos rfl, if_pos rfl,
    List.findIdx_cons, hx]
  rfl

/-- Membership gives a positive `any`. -/
theorem any_id_of_mem {b : Message} {l : List Message} (hb : b ∈ l) :
    l.any (fun m => m.id == b.id) = true :=
  List.any_eq_true.mpr ⟨b, hb, by simp⟩

/-- In a list with pairwise-distinct ids, the encounter order of a pair is
reflected by `indexById`. -/
theorem indexById_lt_of_pair :
    ∀ (msgs : List Message),
      msgs.Pairwise (fun a b => a.id ≠ b.id) →
      ∀ (a b : Message), [a, b].Sublist msgs →
        indexById msgs a.id < indexById msgs b.id := by
  intro msgs
  induction msgs with
  | nil =>
    intro _ a b hab
    simp at hab
  | cons x rest ih =>
    intro hp a b hab
    cases hab with
    | cons _ h =>
      have haR : a ∈ rest := h.subset (by simp)
      have hbR : b ∈ rest := h.subset (by simp)
      have hax : x.id ≠ a.id := (List.pairwise_cons.mp hp).1 a haR
      have hbx : x.id ≠ b.id := (List.pairwise_cons.mp hp).1 b hbR
      rw [indexById_cons_ne x rest a.id hax (any_id_of_mem haR),
        indexById_cons_ne x rest b.id hbx (any_id_of_mem hbR)]
      have := ih (List.pairwise_cons.mp hp).2 a b h
      omega
    | cons₂ _ h =>
      have hbR : b ∈ rest := h.subset (by simp)
      have hbx : x.id ≠ b.id := (List.pairwise_cons.mp hp).1 b hbR
      rw [indexById_cons_self x rest,
        indexById_cons_ne x rest b.id hbx (any_id_of_mem hbR)]
      omega

/-- C1: for every mapping with distinct message ids, `renderPanel` renders
the messages as a permutation of the input in which any two timestamped
messages appear in lexicographic timestamp order, every message lacking a
timestamp appears before every timestamped one, and messages lacking
timestamps keep their original encounter order; in particular the scenario
`[{id 1, no ts}, {id 2, ts}, {id 3, no ts}]` renders as `[1, 3, 2]`. -/
theorem renderPanel_message_order (msgs : List Message)
    (hids : msgs.Pairwise fun a b => a.id ≠ b.id) :
    (renderOrder msgs).Perm msgs ∧
    (renderOrder msgs).Pairwise (fun a b =>
      (msgTime b = [] → msgTime a = []) ∧
      (msgTime a ≠ [] → msgTime b ≠ [] → lexLe (msgTime a) (msgTime b) = true)) ∧
    (∀ a b, msgTime a = [] → msgTime b = [] →
      [a, b].Sublist msgs → [a, b].Sublist (renderOrder msgs)) ∧
    renderOrder [noTsMsg1, tsMsg2, noTsMsg3] = [noTsMsg1, noTsMsg3, tsMsg2] := by
  have hded : messagesByIdList msgs = msgs := messagesByIdList_eq msgs hids
  refine ⟨?_, ?_, ?_, by decide⟩
  · unfold renderOrder
    rw [hded]
    exact (List.perm_insertionSort _ _).trans (List.perm_insertionSort _ _)
  · have hs : (renderOrder msgs).Pairwise leByTime := by
      unfold renderOrder
      exact List.sorted_insertionSort leByTime _
    refine hs.imp ?_
    intro a b hab
    have hab' : lexCmp (msgTime a) (msgTime b) ≤ 0 := hab
    have h' := lexCmp_nonpos.mp hab'
    constructor
    · intro hb
      rcases h' with h | h
      · rw [hb, lexLt_nil_right] at h
        exact absurd h (by simp)
      · rw [h]
        exact hb
    · intro _ _
      unfold lexLe
      rcases h' with h | h
      · simp [h]
      · simp [h]
  · intro a b ha hb hab
    unfold renderOrder
    rw [hded]
    have hle1 : leByTimeThenIndex (indexById msgs) a b := by
      show cmpByTimeThenIndex (indexById msgs) a b ≤ 0
      rw [cmpTTI_none (indexById msgs) a b ha hb]
      have := indexById_lt_of_pair msgs hids a b hab
      omega
    have h1 : [a, b].Sublist
        (List.insertionSort (leByTimeThenIndex (indexById msgs)) msgs) :=
      List.pair_sublist_insertionSort hle1 hab
    have hle2 : leByTime a b := by
      show cmpByTime a b ≤ 0
      unfold cmpByTime
      rw [ha, hb]
      exact lexCmp_nonpos.mpr (Or.inr rfl)
    exact List.pair_sublist_insertionSort hle2 h1

/-- Witness for C1 at the three-message scenario. -/
theorem renderPanel_message_order_witness :
    (renderOrder [noTsMsg1, tsMsg2, noTsMsg3]).Perm [noTsMsg1, tsMsg2, noTsMsg3] ∧
    renderOrder [noTsMsg1, tsMsg2, noTsMsg3] = [noTsMsg1, noTsMsg3, tsMsg2] :=
  ⟨(renderPanel_message_order [noTsMsg1, tsMsg2, noTsMsg3] (by decide)).1,
   (renderPanel_message_order [noTsMsg1, tsMsg2, noTsMsg3] (by decide)).2.2.2⟩

end AgentExport
